import Mathlib

/-!
Verification development for the daily-note synchronization engine
(`src/plugin/daily-note-manager.ts`).

Documents are modelled as `List Char`; JavaScript `String.prototype.indexOf`
is modelled by `firstIdx`, `String.prototype.includes` by `firstIdx … |>.isSome`,
`substring`/slicing by `List.take`/`List.drop`.  Machine state (the
re-entrancy guard) and external effects (vault reads/writes, notices,
reminder updates) are made explicit: the two entry points become pure
functions from an environment of collaborator oracles and the incoming
guard value to an `Except` result carrying the final guard value and the
ordered trace of effects.
-/

namespace DailyNote

/-- Model of JavaScript `String.prototype.indexOf`: index of the first
occurrence of `pat` in `s`, or `none`. -/
def firstIdx (pat : List Char) : List Char → Option Nat
  | [] => if pat.isPrefixOf ([] : List Char) then some 0 else none
  | a :: t => if pat.isPrefixOf (a :: t) then some 0 else (firstIdx pat t).map (· + 1)

/-- The fields of a reminder that `DailyNoteManager` reads: `title`, `done`,
`file` (source note reference) and the stable identifier returned by `key()`. -/
structure Reminder where
  title : List Char
  done : Bool
  file : List Char
  key : List Char
  deriving DecidableEq, Repr

/-- Vault file metadata used by the manager: `path`, `name` (file name with
extension), `basename` (without extension) and `stat.mtime`. -/
structure TFile where
  path : List Char
  name : List Char
  basename : List Char
  mtime : Nat
  deriving DecidableEq, Repr

/-- The literal start marker built from the configured section-marker label. -/
def startMarkerOf (marker : List Char) : List Char :=
  "<!-- start of ".data ++ marker ++ " -->".data

/-- The literal end marker built from the configured section-marker label. -/
def endMarkerOf (marker : List Char) : List Char :=
  "<!-- end of ".data ++ marker ++ " -->".data

/-- The checklist line rendered for one reminder
(`- [<x| >] <title> [[<file>|source]] <!-- reminder-key: <key> -->`). -/
def renderLine (r : Reminder) : List Char :=
  "- [".data ++ (if r.done then "x".data else " ".data) ++ "] ".data ++ r.title ++
    " [[".data ++ r.file ++ "|source]] <!-- reminder-key: ".data ++ r.key ++ " -->".data

/-- All reminder lines joined with single newlines (`join("\n")`). -/
def renderLines (rs : List Reminder) : List Char :=
  List.intercalate ['\n'] (rs.map renderLine)

/-- The freshly rendered section: start marker, newline, reminder lines,
newline, end marker. -/
def newSection (m : List Char) (rs : List Reminder) : List Char :=
  startMarkerOf m ++ ['\n'] ++ renderLines rs ++ ['\n'] ++ endMarkerOf m

/-- Model of `DailyNoteManager.updateReminderSection`: locate the first
occurrences of the two markers; if either is missing return `none`, else
splice `newSection` between the start of the start marker and the end of the
end marker. -/
def updateReminderSection (m content : List Char) (rs : List Reminder) :
    Option (List Char) :=
  match firstIdx (startMarkerOf m) content, firstIdx (endMarkerOf m) content with
  | some s, some e =>
      some (content.take s ++ newSection m rs ++
            content.drop (e + (endMarkerOf m).length))
  | _, _ => none

/-- Model of `findDailyNote`'s two-stage filter: exact basename match first,
then (only if that is empty) a name-substring fallback. -/
def candidateStage (dateStr : List Char) (files : List TFile) : List TFile :=
  let exact := files.filter (fun f => f.basename == dateStr)
  if exact.isEmpty then files.filter (fun f => (firstIdx dateStr f.name).isSome)
  else exact

/-- Model of `reduce((prev, cur) => prev.stat.mtime > cur.stat.mtime ? prev : cur)`. -/
def pickMax (a : TFile) (t : List TFile) : TFile :=
  t.foldl (fun p c => if p.mtime > c.mtime then p else c) a

/-- Model of `DailyNoteManager.findDailyNote`. -/
def findDailyNote (dateStr : List Char) (files : List TFile) : Option TFile :=
  match candidateStage dateStr files with
  | [] => none
  | a :: t => some (pickMax a t)

/-- Characters removed by JavaScript `String.prototype.trim` that can occur
in a section line. -/
def isWS (c : Char) : Bool :=
  c == ' ' || c == '\t' || c == '\r' || c == '\n'

/-- Model of `line.trim()`. -/
def trimWS (l : List Char) : List Char :=
  ((l.dropWhile isWS).reverse.dropWhile isWS).reverse

/-- Modelled from the spec: the generic checklist-line parser `Todo.parse`
(defined in `model/format/markdown`, which is not among the provided
sources).  Per the spec it recognizes a leading checklist marker `- [ ]` or
`- [x]` (case-insensitive on the mark character), yielding the checked state
and the remainder of the line as the body; any other line yields `none`. -/
def todoParse (line : List Char) : Option (Bool × List Char) :=
  match line with
  | '-' :: ' ' :: '[' :: c :: ']' :: ' ' :: body =>
      if c = 'x' ∨ c = 'X' then some (true, body)
      else if c = ' ' then some (false, body)
      else none
  | _ => none

def keyOpen : List Char := "<!-- reminder-key: ".data

def keyClose : List Char := " -->".data

/-- Model of the regex `/<!-- reminder-key: (.*?) -->/` applied to a todo
body: the text between the first key-comment opener and the next closer. -/
def extractKey (body : List Char) : Option (List Char) :=
  match firstIdx keyOpen body with
  | none => none
  | some i =>
      match firstIdx keyClose (body.drop (i + keyOpen.length)) with
      | none => none
      | some j => some ((body.drop (i + keyOpen.length)).take j)

/-- The key actually used for matching: JavaScript `if (key)` treats the
empty capture like a missing one. -/
def effectiveKey (body : List Char) : Option (List Char) :=
  match extractKey body with
  | none => none
  | some k => if k.isEmpty then none else some k

/-- Index of the first element satisfying `p` (model of `Array.find`). -/
def findFirstIdx {α : Type} (p : α → Bool) : List α → Option Nat
  | [] => none
  | a :: l => if p a then some 0 else (findFirstIdx p l).map (· + 1)

/-- The matching predicate of `handleFileModify`: by key when a (non-empty)
key comment is embedded, otherwise by title-prefix on the body. -/
def matchPred (body : List Char) (k : Option (List Char)) (r : Reminder) : Bool :=
  match k with
  | some key => r.key == key
  | none => r.title.isPrefixOf body

/-- Index (in collection order) of the reminder matched by a section line,
if the line parses as a checklist item and some reminder matches. -/
def matchedIdx (todos : List Reminder) (line : List Char) : Option Nat :=
  match todoParse (trimWS line) with
  | none => none
  | some (_, body) => findFirstIdx (matchPred body (effectiveKey body)) todos

/-- The update-sink call produced by one section line: the matched
reminder's index and the line's checked state, but only when the reminder's
`done` differs from the checkbox. -/
def lineCall (todos : List Reminder) (line : List Char) : Option (Nat × Bool) :=
  match todoParse (trimWS line) with
  | none => none
  | some (chk, _) =>
      match matchedIdx todos line with
      | none => none
      | some i =>
          match todos[i]? with
          | none => none
          | some r => if r.done == chk then none else some (i, chk)

/-- All update-sink calls of one `handleFileModify` pass, in line order. -/
def sinkCalls (todos : List Reminder) (lines : List (List Char)) :
    List (Nat × Bool) :=
  lines.filterMap (lineCall todos)

/-- Effect of the injected `updateReminder` sink on the collection: set the
`done` field of the reminder at the given index. -/
def setDone : List Reminder → Nat → Bool → List Reminder
  | [], _, _ => []
  | r :: rs, 0, b => { r with done := b } :: rs
  | r :: rs, i + 1, b => r :: setDone rs i b

/-- The collection after a list of sink calls has been applied in order. -/
def applyCalls (todos : List Reminder) (calls : List (Nat × Bool)) : List Reminder :=
  calls.foldl (fun ts c => setDone ts c.1 c.2) todos

/-- Numeric value of a digit string (used for date validation). -/
def digitsToNat (l : List Char) : Nat :=
  l.foldl (fun n c => n * 10 + (c.toNat - 48)) 0

def isLeapYear (y : Nat) : Bool :=
  (y % 4 == 0 && y % 100 != 0) || y % 400 == 0

def daysInMonth (y mo : Nat) : Nat :=
  if mo == 2 then (if isLeapYear y then 29 else 28)
  else if mo == 4 || mo == 6 || mo == 9 || mo == 11 then 30
  else 31

/-- Shape test for the regex `/(\d{4}-\d{2}-\d{2})/` on a 10-character window. -/
def isDatePattern (l : List Char) : Bool :=
  match l with
  | [a, b, c, d, s1, e, f, s2, g, h] =>
      a.isDigit && b.isDigit && c.isDigit && d.isDigit && s1 == '-' &&
      e.isDigit && f.isDigit && s2 == '-' && g.isDigit && h.isDigit
  | _ => false

/-- Leftmost match of the date regex in a file name. -/
def findDatePattern : List Char → Option (List Char)
  | [] => none
  | c :: t =>
      if isDatePattern ((c :: t).take 10) then some ((c :: t).take 10)
      else findDatePattern t

/-- Modelled from the spec: `moment(dateStr, "YYYY-MM-DD").isValid()` — the
`DateTime`/`moment` validity check lives outside the provided sources; per
the spec a date pattern must parse as a real calendar date (month 1–12, day
within the month, Gregorian leap rule). -/
def validDateStr (ds : List Char) : Bool :=
  match ds with
  | [a, b, c, d, _, e, f, _, g, h] =>
      let y := digitsToNat [a, b, c, d]
      let mo := digitsToNat [e, f]
      let da := digitsToNat [g, h]
      decide (1 ≤ mo ∧ mo ≤ 12 ∧ 1 ≤ da ∧ da ≤ daysInMonth y mo)
  | _ => false

/-- Model of `getDailyNoteDate`: extract the first `YYYY-MM-DD` pattern from
the file name and keep it only if it is a valid calendar date; the result is
the canonical date string the engine joins on. -/
def getDailyNoteDate (name : List Char) : Option (List Char) :=
  match findDatePattern name with
  | none => none
  | some ds => if validDateStr ds then some ds else none

/-- The five notification outcome categories. -/
inductive NoticeKind where
  | notFound
  | markersNotFound
  | updated
  | upToDate
  | failed
  deriving DecidableEq, Repr

/-- Observable effects of an engine run, in order of occurrence. -/
inductive Eff where
  | read (f : TFile)
  | write (f : TFile) (content : List Char)
  | notice (k : NoticeKind)
  | updateRem (r : Reminder) (checked : Bool)
  | render (quiet : Bool) (date : List Char)
  deriving DecidableEq, Repr

/-- The collaborators consumed by the engine: configuration, clock, vault
enumeration/read/write oracles (with failure), and the reminder collection's
date index.  A `.error` from an oracle models a thrown exception. -/
structure Env where
  autoEmbed : Bool
  marker : List Char
  now : List Char
  enum : Except Unit (List TFile)
  readF : TFile → Except Unit (List Char)
  writeF : TFile → List Char → Except Unit Unit
  byDate : List Char → List Reminder

/-- Model of `DailyNoteManager.updateDailyNote`.  The result is `.error` when
an exception escapes the call; otherwise the final value of the `isUpdating`
guard and the trace of effects. -/
def updateDailyNote (env : Env) (quiet : Bool) (specificDate : Option (List Char))
    (guard : Bool) : Except Unit (Bool × List Eff) :=
  if !env.autoEmbed || guard then .ok (guard, [])
  else
    match env.enum with
    | .error e => .error e
    | .ok files =>
      match findDailyNote (specificDate.getD env.now) files with
      | none => .ok (guard, if quiet then [] else [.notice .notFound])
      | some dn =>
        match env.readF dn with
        | .error _ =>
            .ok (false, [.read dn] ++ if quiet then [] else [.notice .failed])
        | .ok content =>
          match updateReminderSection env.marker content
              (env.byDate (specificDate.getD env.now)) with
          | none =>
              .ok (false, [.read dn] ++
                if quiet then [] else [.notice .markersNotFound])
          | some nc =>
            if content = nc then
              .ok (false, [.read dn] ++ if quiet then [] else [.notice .upToDate])
            else
              match env.writeF dn nc with
              | .error _ =>
                  .ok (false, [.read dn, .write dn nc] ++
                    if quiet then [] else [.notice .failed])
              | .ok _ =>
                  .ok (false, [.read dn, .write dn nc] ++
                    if quiet then [] else [.notice .updated])

/-- The lines of the marker-delimited section, as read by `handleFileModify`
(JavaScript `substring` swaps its bounds when start exceeds end). -/
def sectionLines (m content : List Char) (s e : Nat) : List (List Char) :=
  List.splitOn '\n'
    ((content.take (max (s + (startMarkerOf m).length) e)).drop
      (min (s + (startMarkerOf m).length) e))

/-- Model of `DailyNoteManager.handleFileModify`: inbound reconciliation
followed by the healing re-render when no reminder changed.  Read failures
propagate (there is no try/catch in this method). -/
def handleFileModify (env : Env) (file : TFile) (guard : Bool) :
    Except Unit (Bool × List Eff) :=
  if guard || !env.autoEmbed then .ok (guard, [])
  else
    match getDailyNoteDate file.name with
    | none => .ok (guard, [])
    | some d =>
      match env.readF file with
      | .error e => .error e
      | .ok content =>
        match firstIdx (startMarkerOf env.marker) content,
              firstIdx (endMarkerOf env.marker) content with
        | some s, some e =>
          if (sinkCalls (env.byDate d) (sectionLines env.marker content s e)).isEmpty then
            match updateDailyNote env true (some d) guard with
            | .error e2 => .error e2
            | .ok (g, effs) =>
                .ok (g, [Eff.read file] ++
                  ((sinkCalls (env.byDate d) (sectionLines env.marker content s e)).filterMap
                    (fun c => ((env.byDate d)[c.1]?).map (fun r => Eff.updateRem r c.2))) ++
                  [Eff.render true d] ++ effs)
          else
            .ok (guard, [Eff.read file] ++
              ((sinkCalls (env.byDate d) (sectionLines env.marker content s e)).filterMap
                (fun c => ((env.byDate d)[c.1]?).map (fun r => Eff.updateRem r c.2))))
        | _, _ => .ok (guard, [Eff.read file])

def isWriteEff : Eff → Bool
  | .write _ _ => true
  | _ => false

def isUpdateEff : Eff → Bool
  | .updateRem _ _ => true
  | _ => false

/-- The vault writes performed by a run (none when an exception escaped
before any write could complete). -/
def writesOfResult : Except Unit (Bool × List Eff) → List Eff
  | .error _ => []
  | .ok (_, effs) => effs.filter isWriteEff

/-- The reminder-update sink calls performed by a run. -/
def updatesOfResult : Except Unit (Bool × List Eff) → List Eff
  | .error _ => []
  | .ok (_, effs) => effs.filter isUpdateEff

/-- A reminder used by concrete runs below. -/
def demoReminder : Reminder := ⟨"T".data, true, "f.md".data, "k1".data⟩

/-- A daily-note file used by concrete runs below. -/
def demoFile : TFile :=
  ⟨"2024-01-06.md".data, "2024-01-06.md".data, "2024-01-06".data, 7⟩

/-- A daily-note document with one unchecked line for `demoReminder`. -/
def demoContent : List Char :=
  "A<!-- start of todos -->\n- [ ] T\n<!-- end of todos -->C".data

/-- A concrete environment for the reconciliation run. -/
def demoEnv : Env :=
  ⟨true, "todos".data, "2024-01-06".data, .ok [demoFile],
    fun _ => .ok demoContent, fun _ _ => .ok (), fun _ => [demoReminder]⟩

theorem firstIdx_eq_some_iff (pat : List Char) :
    ∀ (s : List Char) (i : Nat),
      firstIdx pat s = some i ↔
        (pat <+: s.drop i ∧ ∀ j, j < i → ¬ pat <+: s.drop j) := by
  intro s
  induction s with
  | nil =>
    intro i
    simp only [firstIdx]
    by_cases h : pat <+: ([] : List Char)
    · rw [if_pos ( List.isPrefixOf_iff_prefix.mpr h)]
      constructor
      · intro h0
        cases h0
        simpa using h
      · intro ⟨_, hmin⟩
        cases i with
        | zero => rfl
        | succ n => exact absurd (by simpa using h) (hmin 0 (Nat.succ_pos n))
    · rw [if_neg (fun hb => h ( List.isPrefixOf_iff_prefix.mp hb))]
      constructor
      · intro hc; cases hc
      · intro ⟨hp, _⟩
        exact absurd (by simpa using hp) h
  | cons a t ih =>
    intro i
    simp only [firstIdx]
    by_cases h : pat <+: (a :: t)
    · rw [if_pos ( List.isPrefixOf_iff_prefix.mpr h)]
      constructor
      · intro h0
        cases h0
        exact ⟨by simpa using h, by omega⟩
      · intro ⟨_, hmin⟩
        cases i with
        | zero => rfl
        | succ n => exact absurd (by simpa using h) (hmin 0 (Nat.succ_pos n))
    · rw [if_neg (fun hb => h ( List.isPrefixOf_iff_prefix.mp hb))]
      constructor
      · intro hmap
        rcases Option.map_eq_some'.mp hmap with ⟨i', hi', rfl⟩
        rcases (ih i').mp hi' with ⟨hp, hmin⟩
        refine ⟨by simpa using hp, ?_⟩
        intro j hj
        cases j with
        | zero => simpa using h
        | succ j' =>
          have := hmin j' (by omega)
          simpa using this
      · intro ⟨hp, hmin⟩
        cases i with
        | zero => exact absurd (by simpa using hp) h
        | succ i' =>
          have hpt : pat <+: t.drop i' := by simpa using hp
          have hmint : ∀ j, j < i' → ¬ pat <+: t.drop j := by
            intro j hj
            have := hmin (j + 1) (by omega)
            simpa using this
          rw [(ih i').mpr ⟨hpt, hmint⟩]
          rfl

theorem firstIdx_found {pat s : List Char} {i : Nat}
    (h : firstIdx pat s = some i) : pat <+: s.drop i :=
  ((firstIdx_eq_some_iff pat s i).mp h).1

theorem firstIdx_min {pat s : List Char} {i : Nat}
    (h : firstIdx pat s = some i) : ∀ j, j < i → ¬ pat <+: s.drop j :=
  ((firstIdx_eq_some_iff pat s i).mp h).2

theorem firstIdx_le_length {pat s : List Char} {i : Nat}
    (h : firstIdx pat s = some i) : i + pat.length ≤ s.length := by
  have hp := firstIdx_found h
  have hlen : pat.length ≤ s.length - i := by
    have := hp.length_le
    simpa using this
  by_cases hi : i ≤ s.length
  · omega
  · have : s.drop i = [] := List.drop_eq_nil_of_le (by omega)
    rw [this] at hp
    have : pat = [] := List.prefix_nil.mp hp
    subst this
    -- `pat = []` means `firstIdx` returns `some 0` immediately
    have : (0 : Nat) = i := by
      cases s with
      | nil => simpa [firstIdx] using h
      | cons a t =>
        have h0 : firstIdx [] (a :: t) = some 0 := by simp [firstIdx, List.isPrefixOf]
        rw [h0] at h
        exact Option.some_inj.mp h
    omega

/-- A prefix occurrence found by `firstIdx` splits the string:
`s.take (i + pat.length) = s.take i ++ pat`. -/
theorem take_firstIdx {pat s : List Char} {i : Nat}
    (h : firstIdx pat s = some i) :
    s.take (i + pat.length) = s.take i ++ pat := by
  rcases firstIdx_found h with ⟨r, hr⟩
  have hle := firstIdx_le_length h
  have hi : i ≤ s.length := by omega
  conv_lhs => rw [← List.take_append_drop i s, ← hr]
  have hlen : (s.take i).length = i := List.length_take_of_le hi
  rw [show i + pat.length = (s.take i).length + pat.length by rw [hlen]]
  rw [List.take_append]
  congr 1
  rw [List.take_append_of_le_length (Nat.le_refl _), List.take_length]

/-- Transfer an occurrence between two strings that agree on a prefix
covering the occurrence window. -/
theorem occ_transfer {pat c₁ c₂ : List Char} {n j : Nat}
    (htake : c₁.take n = c₂.take n) (hj : j + pat.length ≤ n)
    (hocc : pat <+: c₁.drop j) : pat <+: c₂.drop j := by
  have h1 : pat = (c₁.drop j).take pat.length :=
    List.prefix_iff_eq_take.mp hocc
  have e1 : (c₁.drop j).take pat.length = (c₁.take (j + pat.length)).drop j := by
    rw [List.drop_take]
    congr 1
    omega
  have e2 : c₁.take (j + pat.length) = c₂.take (j + pat.length) := by
    have a1 : c₁.take (j + pat.length) = (c₁.take n).take (j + pat.length) := by
      rw [List.take_take, min_eq_left hj]
    have a2 : c₂.take (j + pat.length) = (c₂.take n).take (j + pat.length) := by
      rw [List.take_take, min_eq_left hj]
    rw [a1, a2, htake]
  have e3 : (c₂.take (j + pat.length)).drop j = (c₂.drop j).take pat.length := by
    rw [List.drop_take]
    congr 1
    omega
  rw [h1, e1, e2, e3]
  exact List.take_prefix _ _

/-- Generic helper: taking exactly the left part of an append. -/
theorem take_len_append {α : Type} (A B : List α) : (A ++ B).take A.length = A := by
  rw [List.take_append_of_le_length (Nat.le_refl _), List.take_length]

/-- Generic helper: dropping exactly the left part of an append. -/
theorem drop_len_append {α : Type} (A B : List α) : (A ++ B).drop A.length = B := by
  simp

theorem startMarkerOf_length (m : List Char) :
    (startMarkerOf m).length = m.length + 18 := by
  have h1 : ("<!-- start of ".data).length = 14 := rfl
  have h2 : (" -->".data).length = 4 := rfl
  simp [startMarkerOf, h1, h2]

theorem endMarkerOf_length (m : List Char) :
    (endMarkerOf m).length = m.length + 16 := by
  have h1 : ("<!-- end of ".data).length = 12 := rfl
  have h2 : (" -->".data).length = 4 := rfl
  simp [endMarkerOf, h1, h2]

theorem updateReminderSection_found {m content : List Char} {s e : Nat}
    (rs : List Reminder)
    (hs : firstIdx (startMarkerOf m) content = some s)
    (he : firstIdx (endMarkerOf m) content = some e) :
    updateReminderSection m content rs =
      some (content.take s ++ newSection m rs ++
            content.drop (e + (endMarkerOf m).length)) := by
  simp [updateReminderSection, hs, he]

theorem updateReminderSection_missing (m content : List Char) (rs : List Reminder)
    (h : firstIdx (startMarkerOf m) content = none ∨
         firstIdx (endMarkerOf m) content = none) :
    updateReminderSection m content rs = none := by
  cases h1 : firstIdx (startMarkerOf m) content with
  | none =>
      cases h2 : firstIdx (endMarkerOf m) content <;>
        simp [updateReminderSection, h1, h2]
  | some s =>
      cases h2 : firstIdx (endMarkerOf m) content with
      | none => simp [updateReminderSection, h1, h2]
      | some e => rcases h with h | h <;> simp_all

/-- C2: when both markers are present with the start marker first, the
rewrite keeps every byte before the start marker (`P`) and after the end
marker (`Q`) and replaces the enclosed region by the start marker, exactly
one newline, the rendered lines, exactly one newline and the end marker. -/
theorem claim2_splice_preserves_outside (m P X R Q : List Char) (rs : List Reminder)
    (hP : firstIdx (startMarkerOf m) (P ++ startMarkerOf m ++ X) = some P.length)
    (hcontent : P ++ startMarkerOf m ++ X = R ++ endMarkerOf m ++ Q)
    (hR : firstIdx (endMarkerOf m) (P ++ startMarkerOf m ++ X) = some R.length)
    (_hord : P.length + (startMarkerOf m).length ≤ R.length) :
    updateReminderSection m (P ++ startMarkerOf m ++ X) rs =
      some (P ++ startMarkerOf m ++ ['\n'] ++ renderLines rs ++ ['\n'] ++
            endMarkerOf m ++ Q) := by
  have e1 : (P ++ startMarkerOf m ++ X).take P.length = P := by
    rw [List.append_assoc]
    exact take_len_append P _
  have e2 : (P ++ startMarkerOf m ++ X).drop (R.length + (endMarkerOf m).length) = Q := by
    rw [hcontent]
    have hl : R.length + (endMarkerOf m).length = (R ++ endMarkerOf m).length :=
      (List.length_append _ _).symm
    rw [hl]
    exact drop_len_append (R ++ endMarkerOf m) Q
  rw [updateReminderSection_found rs hP hR, e1, e2, newSection]
  simp [List.append_assoc]

/-- C10: when the first end-marker occurrence precedes the first start-marker
occurrence, the rewrite is not `MarkersNotFound`; the text `mid` between the
markers is duplicated and the original start marker survives after the newly
spliced section. -/
theorem claim10_reversed_markers_duplicate (m A mid Z : List Char) (rs : List Reminder)
    (he : firstIdx (endMarkerOf m)
            (A ++ endMarkerOf m ++ mid ++ startMarkerOf m ++ Z) = some A.length)
    (hs : firstIdx (startMarkerOf m)
            (A ++ endMarkerOf m ++ mid ++ startMarkerOf m ++ Z) =
          some (A.length + (endMarkerOf m).length + mid.length)) :
    updateReminderSection m (A ++ endMarkerOf m ++ mid ++ startMarkerOf m ++ Z) rs =
      some (A ++ endMarkerOf m ++ mid ++ startMarkerOf m ++ ['\n'] ++
            renderLines rs ++ ['\n'] ++ endMarkerOf m ++ mid ++ startMarkerOf m ++ Z) := by
  have e1 : (A ++ endMarkerOf m ++ mid ++ startMarkerOf m ++ Z).take
        (A.length + (endMarkerOf m).length + mid.length) =
      A ++ endMarkerOf m ++ mid := by
    have hsh : A ++ endMarkerOf m ++ mid ++ startMarkerOf m ++ Z =
        (A ++ endMarkerOf m ++ mid) ++ (startMarkerOf m ++ Z) := by
      simp [List.append_assoc]
    rw [hsh]
    have hl : A.length + (endMarkerOf m).length + mid.length =
        (A ++ endMarkerOf m ++ mid).length := by
      rw [List.length_append, List.length_append]
    rw [hl]
    exact take_len_append _ _
  have e2 : (A ++ endMarkerOf m ++ mid ++ startMarkerOf m ++ Z).drop
        (A.length + (endMarkerOf m).length) = mid ++ startMarkerOf m ++ Z := by
    have hsh : A ++ endMarkerOf m ++ mid ++ startMarkerOf m ++ Z =
        (A ++ endMarkerOf m) ++ (mid ++ startMarkerOf m ++ Z) := by
      simp [List.append_assoc]
    rw [hsh]
    have hl : A.length + (endMarkerOf m).length = (A ++ endMarkerOf m).length := by
      rw [List.length_append]
    rw [hl]
    exact drop_len_append _ _
  rw [updateReminderSection_found rs hs he, e1, e2, newSection]
  simp [List.append_assoc]

theorem newSection_length (m : List Char) (rs : List Reminder) :
    (newSection m rs).length =
      (startMarkerOf m).length + 1 + (renderLines rs).length + 1 +
        (endMarkerOf m).length := by
  simp only [newSection, List.length_append, List.length_cons, List.length_nil]

/-- Core of C3: an already-rendered document (with the start marker at or
before the end marker, and the fresh section's first end-marker occurrence
being its terminal marker) is a fixed point of `updateReminderSection`. -/
theorem render_once_fixed (m content : List Char) (rs : List Reminder) (s e : Nat)
    (hs : firstIdx (startMarkerOf m) content = some s)
    (he : firstIdx (endMarkerOf m) content = some e)
    (hse : s ≤ e)
    (hsec : firstIdx (endMarkerOf m) (newSection m rs) =
      some ((startMarkerOf m).length + 1 + (renderLines rs).length + 1)) :
    updateReminderSection m
        (content.take s ++ newSection m rs ++
          content.drop (e + (endMarkerOf m).length)) rs =
      some (content.take s ++ newSection m rs ++
        content.drop (e + (endMarkerOf m).length)) := by
  have hemlen : (endMarkerOf m).length + 2 = (startMarkerOf m).length := by
    rw [startMarkerOf_length, endMarkerOf_length]
  have hsle := firstIdx_le_length hs
  have hPlen : (content.take s).length = s := List.length_take_of_le (by omega)
  have hsecLen := newSection_length m rs
  -- shapes of the once-rendered document
  have hshape1 : content.take s ++ newSection m rs ++
        content.drop (e + (endMarkerOf m).length) =
      (content.take s ++ startMarkerOf m) ++
        (['\n'] ++ renderLines rs ++ ['\n'] ++ endMarkerOf m ++
          content.drop (e + (endMarkerOf m).length)) := by
    simp [newSection, List.append_assoc]
  have hshape2 : content.take s ++ newSection m rs ++
        content.drop (e + (endMarkerOf m).length) =
      content.take s ++ (newSection m rs ++
        content.drop (e + (endMarkerOf m).length)) := by
    simp [List.append_assoc]
  have hshape3 : content.take s ++ newSection m rs ++
        content.drop (e + (endMarkerOf m).length) =
      (content.take s ++ (startMarkerOf m ++ ['\n'] ++ renderLines rs ++ ['\n'])) ++
        (endMarkerOf m ++ content.drop (e + (endMarkerOf m).length)) := by
    simp [newSection, List.append_assoc]
  have hshape4 : content.take s ++ newSection m rs ++
        content.drop (e + (endMarkerOf m).length) =
      (content.take s ++ newSection m rs) ++
        content.drop (e + (endMarkerOf m).length) := by
    simp [List.append_assoc]
  -- prefix of length s + |sm| agrees with the original document
  have htakeC : content.take (s + (startMarkerOf m).length) =
      content.take s ++ startMarkerOf m := take_firstIdx hs
  have htakeR : (content.take s ++ newSection m rs ++
        content.drop (e + (endMarkerOf m).length)).take
          (s + (startMarkerOf m).length) =
      content.take s ++ startMarkerOf m := by
    rw [hshape1]
    have hl : s + (startMarkerOf m).length =
        (content.take s ++ startMarkerOf m).length := by
      rw [List.length_append, hPlen]
    rw [hl]
    exact take_len_append _ _
  have htakeRC : (content.take s ++ newSection m rs ++
        content.drop (e + (endMarkerOf m).length)).take
          (s + (startMarkerOf m).length) =
      content.take (s + (startMarkerOf m).length) := by
    rw [htakeR, htakeC]
  -- dropping s lands at the fresh section
  have hdropS : (content.take s ++ newSection m rs ++
        content.drop (e + (endMarkerOf m).length)).drop s =
      newSection m rs ++ content.drop (e + (endMarkerOf m).length) := by
    rw [hshape2]
    have h := drop_len_append (content.take s)
      (newSection m rs ++ content.drop (e + (endMarkerOf m).length))
    rw [hPlen] at h
    exact h
  -- the start marker is (still) first found at s
  have hsmR : firstIdx (startMarkerOf m)
      (content.take s ++ newSection m rs ++
        content.drop (e + (endMarkerOf m).length)) = some s := by
    rw [firstIdx_eq_some_iff]
    constructor
    · rw [hdropS]
      have : newSection m rs ++ content.drop (e + (endMarkerOf m).length) =
          startMarkerOf m ++ (['\n'] ++ renderLines rs ++ ['\n'] ++ endMarkerOf m ++
            content.drop (e + (endMarkerOf m).length)) := by
        simp [newSection, List.append_assoc]
      rw [this]
      exact List.prefix_append _ _
    · intro j hj hocc
      have htr : startMarkerOf m <+: content.drop j :=
        occ_transfer htakeRC (by omega) hocc
      exact firstIdx_min hs j hj htr
  -- the end marker is first found at the fresh section's terminal marker
  have hemR : firstIdx (endMarkerOf m)
      (content.take s ++ newSection m rs ++
        content.drop (e + (endMarkerOf m).length)) =
      some (s + ((startMarkerOf m).length + 1 + (renderLines rs).length + 1)) := by
    rw [firstIdx_eq_some_iff]
    constructor
    · rw [hshape3]
      have hl : s + ((startMarkerOf m).length + 1 + (renderLines rs).length + 1) =
          (content.take s ++
            (startMarkerOf m ++ ['\n'] ++ renderLines rs ++ ['\n'])).length := by
        simp only [List.length_append, List.length_cons, List.length_nil, hPlen]
      rw [hl, drop_len_append]
      exact List.prefix_append _ _
    · intro j hj hocc
      by_cases hjs : s ≤ j
      · -- an occurrence inside the fresh section before its terminal marker
        have hdropJ : (content.take s ++ newSection m rs ++
              content.drop (e + (endMarkerOf m).length)).drop j =
            (newSection m rs ++ content.drop (e + (endMarkerOf m).length)).drop
              (j - s) := by
          rw [← hdropS, List.drop_drop]
          congr 1
          omega
        rw [hdropJ] at hocc
        have htk : (newSection m rs ++
              content.drop (e + (endMarkerOf m).length)).take
                (newSection m rs).length =
            (newSection m rs).take (newSection m rs).length := by
          rw [take_len_append, List.take_length]
        have hwin : (j - s) + (endMarkerOf m).length ≤ (newSection m rs).length := by
          omega
        have htr : endMarkerOf m <+: (newSection m rs).drop (j - s) :=
          occ_transfer htk hwin hocc
        exact firstIdx_min hsec (j - s) (by omega) htr
      · by_cases hwin : j + (endMarkerOf m).length ≤ s + (startMarkerOf m).length
        · have htr : endMarkerOf m <+: content.drop j :=
            occ_transfer htakeRC hwin hocc
          exact firstIdx_min he j (by omega) htr
        · omega
  -- second application reproduces the same document
  rw [updateReminderSection_found rs hsmR hemR]
  have h1 : (content.take s ++ newSection m rs ++
        content.drop (e + (endMarkerOf m).length)).take s = content.take s := by
    rw [hshape2]
    have h := take_len_append (content.take s)
      (newSection m rs ++ content.drop (e + (endMarkerOf m).length))
    rw [hPlen] at h
    exact h
  have h2 : (content.take s ++ newSection m rs ++
        content.drop (e + (endMarkerOf m).length)).drop
          (s + ((startMarkerOf m).length + 1 + (renderLines rs).length + 1) +
            (endMarkerOf m).length) =
      content.drop (e + (endMarkerOf m).length) := by
    rw [hshape4]
    have hl : s + ((startMarkerOf m).length + 1 + (renderLines rs).length + 1) +
        (endMarkerOf m).length = (content.take s ++ newSection m rs).length := by
      simp only [List.length_append, hPlen, hsecLen]
      omega
    rw [hl]
    exact drop_len_append _ _
  rw [h1, h2]

/-- The JavaScript reduce keeps the current element on mtime ties, so it
returns the last element attaining the maximum mtime. -/
theorem pickMax_spec (a : TFile) (t : List TFile) :
    ∃ u v, a :: t = u ++ pickMax a t :: v ∧
      (∀ y ∈ v, y.mtime < (pickMax a t).mtime) ∧
      (∀ y ∈ a :: t, y.mtime ≤ (pickMax a t).mtime) := by
  induction t generalizing a with
  | nil =>
    refine ⟨[], [], by simp [pickMax], by simp, ?_⟩
    intro y hy
    simp at hy
    simp [pickMax, hy]
  | cons b t ih =>
    have hstep : pickMax a (b :: t) = pickMax (if a.mtime > b.mtime then a else b) t := by
      simp [pickMax]
    by_cases hab : a.mtime > b.mtime
    · rw [if_pos hab] at hstep
      rcases ih a with ⟨u, v, hsplit, hv, hle⟩
      cases u with
      | nil =>
        simp only [List.nil_append] at hsplit
        have ha : pickMax a t = a := (List.cons.injEq _ _ _ _ ▸ hsplit).1.symm
        have hvt : t = v := (List.cons.injEq _ _ _ _ ▸ hsplit).2
        refine ⟨[], b :: t, ?_, ?_, ?_⟩
        · simp [hstep, ha]
        · intro y hy
          rw [hstep, ha]
          rcases List.mem_cons.mp hy with rfl | hy
          · exact hab
          · have := hv y (hvt ▸ hy)
            rw [ha] at this
            exact this
        · intro y hy
          rw [hstep, ha]
          rcases List.mem_cons.mp hy with rfl | hy
          · exact Nat.le_refl _
          · rcases List.mem_cons.mp hy with rfl | hy
            · exact Nat.le_of_lt hab
            · have := hle y (List.mem_cons_of_mem _ hy)
              rw [ha] at this
              exact this
      | cons x u' =>
        simp only [List.cons_append] at hsplit
        injection hsplit with h1 h2
        subst h1
        refine ⟨a :: b :: u', v, ?_, ?_, ?_⟩
        · rw [hstep]
          simp only [List.cons_append]
          rw [← h2]
        · intro y hy
          rw [hstep]
          exact hv y hy
        · intro y hy
          rw [hstep]
          rcases List.mem_cons.mp hy with rfl | hy
          · exact hle y (List.mem_cons_self _ _)
          · rcases List.mem_cons.mp hy with rfl | hy
            · exact Nat.le_trans (Nat.le_of_lt hab) (hle a (List.mem_cons_self _ _))
            · exact hle y (List.mem_cons_of_mem _ hy)
    · rw [if_neg hab] at hstep
      have hab' : a.mtime ≤ b.mtime := Nat.le_of_not_lt hab
      rcases ih b with ⟨u, v, hsplit, hv, hle⟩
      refine ⟨a :: u, v, ?_, ?_, ?_⟩
      · rw [hstep, List.cons_append, ← hsplit]
      · intro y hy
        rw [hstep]
        exact hv y hy
      · intro y hy
        rw [hstep]
        rcases List.mem_cons.mp hy with rfl | hy
        · exact Nat.le_trans hab' (hle b (List.mem_cons_self _ _))
        · exact hle y hy

theorem pickMax_mem (a : TFile) (t : List TFile) : pickMax a t ∈ a :: t := by
  rcases pickMax_spec a t with ⟨u, v, hsplit, -, -⟩
  rw [hsplit]
  simp

theorem findFirstIdx_eq_some_iff {α : Type} (p : α → Bool) :
    ∀ (l : List α) (i : Nat),
      findFirstIdx p l = some i ↔
        ∃ x, l[i]? = some x ∧ p x = true ∧
          ∀ j, j < i → ∀ y, l[j]? = some y → p y = false := by
  intro l
  induction l with
  | nil => intro i; simp [findFirstIdx]
  | cons a l ih =>
    intro i
    simp only [findFirstIdx]
    by_cases hpa : p a
    · rw [if_pos hpa]
      constructor
      · intro h0
        cases h0
        exact ⟨a, by simp, hpa, by omega⟩
      · intro ⟨x, hx, hpx, hmin⟩
        cases i with
        | zero => rfl
        | succ n =>
          have := hmin 0 (Nat.succ_pos n) a (by simp)
          rw [hpa] at this
          cases this
    · rw [if_neg hpa]
      constructor
      · intro hmap
        rcases Option.map_eq_some'.mp hmap with ⟨i', hi', rfl⟩
        rcases (ih i').mp hi' with ⟨x, hx, hpx, hmin⟩
        refine ⟨x, by simpa using hx, hpx, ?_⟩
        intro j hj y hy
        cases j with
        | zero =>
          simp only [List.getElem?_cons_zero] at hy
          cases hy
          exact Bool.eq_false_iff.mpr hpa
        | succ j' =>
          exact hmin j' (by omega) y (by simpa using hy)
      · intro ⟨x, hx, hpx, hmin⟩
        cases i with
        | zero =>
          simp only [List.getElem?_cons_zero] at hx
          cases hx
          rw [hpx] at hpa
          cases hpa rfl
        | succ i' =>
          have hx' : l[i']? = some x := by simpa using hx
          have hmin' : ∀ j, j < i' → ∀ y, l[j]? = some y → p y = false := by
            intro j hj y hy
            exact hmin (j + 1) (by omega) y (by simpa using hy)
          rw [(ih i').mpr ⟨x, hx', hpx, hmin'⟩]
          rfl

theorem setDone_getElem (ts : List Reminder) :
    ∀ (i j : Nat) (b : Bool),
      (setDone ts i b)[j]? =
        if j = i then (ts[j]?).map (fun r => { r with done := b }) else ts[j]? := by
  induction ts with
  | nil => intro i j b; simp [setDone]
  | cons r rs ih =>
    intro i j b
    cases i with
    | zero =>
      cases j with
      | zero => simp [setDone]
      | succ j' => simp [setDone]
    | succ i' =>
      cases j with
      | zero => simp [setDone]
      | succ j' =>
        simp only [setDone, List.getElem?_cons_succ]
        rw [ih i' j' b]
        by_cases hji : j' = i'
        · rw [if_pos hji, if_pos (by omega : j' + 1 = i' + 1)]
        · rw [if_neg hji, if_neg (by omega : ¬ (j' + 1 = i' + 1))]

theorem applyCalls_append (todos : List Reminder) (c1 c2 : List (Nat × Bool)) :
    applyCalls todos (c1 ++ c2) = applyCalls (applyCalls todos c1) c2 := by
  simp [applyCalls, List.foldl_append]

theorem applyCalls_getElem_avoid (i : Nat) :
    ∀ (cs : List (Nat × Bool)) (ts : List Reminder),
      (∀ c ∈ cs, c.1 ≠ i) → (applyCalls ts cs)[i]? = ts[i]? := by
  intro cs
  induction cs with
  | nil => intro ts _; simp [applyCalls]
  | cons c cs ih =>
    intro ts h
    have hstep : applyCalls ts (c :: cs) = applyCalls (setDone ts c.1 c.2) cs := by
      simp [applyCalls]
    rw [hstep, ih _ (fun d hd => h d (List.mem_cons_of_mem _ hd)), setDone_getElem]
    rw [if_neg (fun hic => (h c (List.mem_cons_self _ _)) hic.symm)]

theorem applyCalls_map_eq {β : Type} (f : Reminder → β)
    (hf : ∀ (r : Reminder) (b : Bool), f { r with done := b } = f r) :
    ∀ (cs : List (Nat × Bool)) (ts : List Reminder) (j : Nat),
      ((applyCalls ts cs)[j]?).map f = (ts[j]?).map f := by
  intro cs
  induction cs with
  | nil => intro ts j; simp [applyCalls]
  | cons c cs ih =>
    intro ts j
    have hstep : applyCalls ts (c :: cs) = applyCalls (setDone ts c.1 c.2) cs := by
      simp [applyCalls]
    rw [hstep, ih, setDone_getElem]
    by_cases hj : j = c.1
    · rw [if_pos hj]
      cases ts[j]? with
      | none => rfl
      | some r => simp [hf]
    · rw [if_neg hj]

theorem applyCalls_length (cs : List (Nat × Bool)) :
    ∀ ts : List Reminder, (applyCalls ts cs).length = ts.length := by
  induction cs with
  | nil => intro ts; simp [applyCalls]
  | cons c cs ih =>
    intro ts
    have hstep : applyCalls ts (c :: cs) = applyCalls (setDone ts c.1 c.2) cs := by
      simp [applyCalls]
    rw [hstep, ih]
    clear ih hstep
    induction ts generalizing c with
    | nil => simp [setDone]
    | cons r rs ihr =>
      obtain ⟨i, b⟩ := c
      cases i with
      | zero => simp [setDone]
      | succ i' =>
        simp only [setDone, List.length_cons]
        have := ihr (i', b)
        simp only at this
        omega

theorem findFirstIdx_congr {α : Type} (p : α → Bool) :
    ∀ (l₁ l₂ : List α), (∀ j : Nat, (l₁[j]?).map p = (l₂[j]?).map p) →
      findFirstIdx p l₁ = findFirstIdx p l₂ := by
  intro l₁
  induction l₁ with
  | nil =>
    intro l₂ h
    cases l₂ with
    | nil => rfl
    | cons b l₂' =>
      have := h 0
      simp at this
  | cons a l ih =>
    intro l₂ h
    cases l₂ with
    | nil =>
      have := h 0
      simp at this
    | cons b l₂' =>
      have h0 : p a = p b := by
        have := h 0
        simpa using this
      have ht : ∀ j : Nat, (l[j]?).map p = (l₂'[j]?).map p := by
        intro j
        have := h (j + 1)
        simpa using this
      simp only [findFirstIdx, h0]
      rw [ih l₂' ht]

theorem matchedIdx_applyCalls (ts : List Reminder) (cs : List (Nat × Bool))
    (line : List Char) :
    matchedIdx (applyCalls ts cs) line = matchedIdx ts line := by
  unfold matchedIdx
  cases h : todoParse (trimWS line) with
  | none => rfl
  | some pb =>
    obtain ⟨chk, body⟩ := pb
    apply findFirstIdx_congr
    intro j
    cases hk : effectiveKey body with
    | some key =>
      have h1 := applyCalls_map_eq Reminder.key (fun _ _ => rfl) cs ts j
      cases hA : (applyCalls ts cs)[j]? with
      | none =>
        cases hT : ts[j]? with
        | none => rfl
        | some r => rw [hA, hT] at h1; simp at h1
      | some r' =>
        cases hT : ts[j]? with
        | none => rw [hA, hT] at h1; simp at h1
        | some r =>
          rw [hA, hT] at h1
          have hkey : r'.key = r.key := by simpa using h1
          simp [matchPred, hkey]
    | none =>
      have h1 := applyCalls_map_eq Reminder.title (fun _ _ => rfl) cs ts j
      cases hA : (applyCalls ts cs)[j]? with
      | none =>
        cases hT : ts[j]? with
        | none => rfl
        | some r => rw [hA, hT] at h1; simp at h1
      | some r' =>
        cases hT : ts[j]? with
        | none => rw [hA, hT] at h1; simp at h1
        | some r =>
          rw [hA, hT] at h1
          have htitle : r'.title = r.title := by simpa using h1
          simp [matchPred, htitle]

theorem lineCall_matchedIdx {todos : List Reminder} {line : List Char}
    {i : Nat} {b : Bool} (h : lineCall todos line = some (i, b)) :
    matchedIdx todos line = some i := by
  cases hp : todoParse (trimWS line) with
  | none => simp [lineCall, hp] at h
  | some pb =>
    obtain ⟨chk, body⟩ := pb
    cases hm : matchedIdx todos line with
    | none => simp [lineCall, hp, hm] at h
    | some i' =>
      cases hr : todos[i']? with
      | none => simp [lineCall, hp, hm, hr] at h
      | some r =>
        by_cases hd : (r.done == chk) = true
        · simp [lineCall, hp, hm, hr, hd] at h
        · simp only [lineCall, hp, hm, hr, if_neg hd] at h
          simp only [Option.some_inj, Prod.mk.injEq] at h
          rw [h.1]

theorem sinkCalls_mem_matched {todos : List Reminder} {lines : List (List Char)}
    {c : Nat × Bool} (h : c ∈ sinkCalls todos lines) :
    c.1 ∈ lines.filterMap (matchedIdx todos) := by
  rcases List.mem_filterMap.mp h with ⟨line, hline, hcall⟩
  obtain ⟨i, b⟩ := c
  exact List.mem_filterMap.mpr ⟨line, hline, lineCall_matchedIdx hcall⟩

theorem sinkCalls_cons_none {todos : List Reminder} {l : List Char}
    {rest : List (List Char)} (h : lineCall todos l = none) :
    sinkCalls todos (l :: rest) = sinkCalls todos rest := by
  simp [sinkCalls, List.filterMap_cons, h]

theorem sinkCalls_cons_some {todos : List Reminder} {l : List Char}
    {rest : List (List Char)} {c : Nat × Bool} (h : lineCall todos l = some c) :
    sinkCalls todos (l :: rest) = c :: sinkCalls todos rest := by
  simp [sinkCalls, List.filterMap_cons, h]

theorem lineCall_none_of_matchedIdx_none (todos : List Reminder) (line : List Char)
    (h : matchedIdx todos line = none) : lineCall todos line = none := by
  cases hp : todoParse (trimWS line) with
  | none => simp [lineCall, hp]
  | some pb =>
    obtain ⟨chk, body⟩ := pb
    simp [lineCall, hp, h]

theorem applyCalls_done_at {ts : List Reminder} {u v : List (Nat × Bool)}
    {i : Nat} {b : Bool} {r : Reminder}
    (hr : ts[i]? = some r)
    (hu : ∀ c ∈ u, c.1 ≠ i) (hv : ∀ c ∈ v, c.1 ≠ i) :
    (applyCalls ts (u ++ (i, b) :: v))[i]? = some { r with done := b } := by
  rw [show u ++ (i, b) :: v = (u ++ [(i, b)]) ++ v by simp]
  rw [applyCalls_append, applyCalls_getElem_avoid i v _ hv, applyCalls_append]
  have h1 : applyCalls (applyCalls ts u) [(i, b)] = setDone (applyCalls ts u) i b := by
    simp [applyCalls]
  rw [h1, setDone_getElem, if_pos rfl, applyCalls_getElem_avoid i u _ hu, hr]
  rfl

/-- Quiescence of inbound reconciliation: once the sink calls produced by a
pass have been applied to the collection, re-processing the same lines
produces no further calls — provided no two lines resolve to the same
reminder (`Nodup` on the matched indices), and any context calls touch none
of the matched reminders. -/
theorem quiesce_aux (todos : List Reminder) :
    ∀ (lines : List (List Char)) (calls0 : List (Nat × Bool)),
      (lines.filterMap (matchedIdx todos)).Nodup →
      (∀ c ∈ calls0, c.1 ∉ lines.filterMap (matchedIdx todos)) →
      sinkCalls (applyCalls todos (calls0 ++ sinkCalls todos lines)) lines = [] := by
  intro lines
  induction lines with
  | nil => intro calls0 _ _; simp [sinkCalls]
  | cons line rest ih =>
    intro calls0 hnd havoid
    cases hm : matchedIdx todos line with
    | none =>
      have hlc : lineCall todos line = none :=
        lineCall_none_of_matchedIdx_none _ _ hm
      have hsk : sinkCalls todos (line :: rest) = sinkCalls todos rest :=
        sinkCalls_cons_none hlc
      have hmatched : (line :: rest).filterMap (matchedIdx todos) =
          rest.filterMap (matchedIdx todos) := by
        simp [List.filterMap_cons, hm]
      rw [hmatched] at hnd havoid
      rw [hsk]
      have hline' : lineCall (applyCalls todos (calls0 ++ sinkCalls todos rest)) line
          = none := by
        apply lineCall_none_of_matchedIdx_none
        rw [matchedIdx_applyCalls]
        exact hm
      rw [sinkCalls_cons_none hline']
      exact ih calls0 hnd havoid
    | some i =>
      have hmatched : (line :: rest).filterMap (matchedIdx todos) =
          i :: rest.filterMap (matchedIdx todos) := by
        simp [List.filterMap_cons, hm]
      rw [hmatched] at hnd havoid
      have hinotin : i ∉ rest.filterMap (matchedIdx todos) :=
        (List.nodup_cons.mp hnd).1
      have hndrest : (rest.filterMap (matchedIdx todos)).Nodup :=
        (List.nodup_cons.mp hnd).2
      obtain ⟨chk, body, hp⟩ : ∃ chk body,
          todoParse (trimWS line) = some (chk, body) := by
        cases hp : todoParse (trimWS line) with
        | none => simp [matchedIdx, hp] at hm
        | some pb =>
          obtain ⟨c0, b0⟩ := pb
          exact ⟨c0, b0, rfl⟩
      have hfind : findFirstIdx (matchPred body (effectiveKey body)) todos = some i := by
        have := hm
        simp only [matchedIdx, hp] at this
        exact this
      obtain ⟨r, hr, -, -⟩ :=
        (findFirstIdx_eq_some_iff (matchPred body (effectiveKey body)) todos i).mp hfind
      have havoidrest : ∀ c ∈ sinkCalls todos rest, c.1 ≠ i := by
        intro c hc hceq
        exact hinotin (hceq ▸ sinkCalls_mem_matched hc)
      have hcalls0' : ∀ c ∈ calls0, c.1 ≠ i := by
        intro c hc hceq
        exact (havoid c hc) (hceq ▸ List.mem_cons_self _ _)
      by_cases hd : r.done = chk
      · -- the checkbox already agrees: no call emitted for this line
        have hlc : lineCall todos line = none := by
          simp [lineCall, hp, hm, hr, hd]
        have hsk : sinkCalls todos (line :: rest) = sinkCalls todos rest :=
          sinkCalls_cons_none hlc
        rw [hsk]
        have havoidall : ∀ c ∈ calls0 ++ sinkCalls todos rest, c.1 ≠ i := by
          intro c hc
          rcases List.mem_append.mp hc with hc | hc
          · exact hcalls0' c hc
          · exact havoidrest c hc
        have hpres : (applyCalls todos (calls0 ++ sinkCalls todos rest))[i]? = some r := by
          rw [applyCalls_getElem_avoid i _ todos havoidall, hr]
        have hline' : lineCall (applyCalls todos (calls0 ++ sinkCalls todos rest)) line
            = none := by
          have hm' : matchedIdx (applyCalls todos (calls0 ++ sinkCalls todos rest)) line
              = some i := by
            rw [matchedIdx_applyCalls]
            exact hm
          simp [lineCall, hp, hm', hpres, hd]
        rw [sinkCalls_cons_none hline']
        have havoid'' : ∀ c ∈ calls0, c.1 ∉ rest.filterMap (matchedIdx todos) := by
          intro c hc hmem
          exact (havoid c hc) (List.mem_cons_of_mem _ hmem)
        exact ih calls0 hndrest havoid''
      · -- differing state: exactly this line's call flips the reminder
        have hlc : lineCall todos line = some (i, chk) := by
          simp [lineCall, hp, hm, hr, hd]
        have hsk : sinkCalls todos (line :: rest) = (i, chk) :: sinkCalls todos rest :=
          sinkCalls_cons_some hlc
        rw [hsk]
        have hdone : (applyCalls todos (calls0 ++ (i, chk) :: sinkCalls todos rest))[i]?
            = some { r with done := chk } :=
          applyCalls_done_at hr hcalls0' havoidrest
        have hline' : lineCall
            (applyCalls todos (calls0 ++ (i, chk) :: sinkCalls todos rest)) line
            = none := by
          have hm' : matchedIdx
              (applyCalls todos (calls0 ++ (i, chk) :: sinkCalls todos rest)) line
              = some i := by
            rw [matchedIdx_applyCalls]
            exact hm
          simp [lineCall, hp, hm', hdone]
        rw [sinkCalls_cons_none hline']
        have havoid' : ∀ c ∈ calls0 ++ [(i, chk)],
            c.1 ∉ rest.filterMap (matchedIdx todos) := by
          intro c hc
          rcases List.mem_append.mp hc with hc | hc
          · intro hmem
            exact (havoid c hc) (List.mem_cons_of_mem _ hmem)
          · simp only [List.mem_singleton] at hc
            subst hc
            exact hinotin
        have hrest := ih (calls0 ++ [(i, chk)]) hndrest havoid'
        rw [show (calls0 ++ [(i, chk)]) ++ sinkCalls todos rest =
            calls0 ++ (i, chk) :: sinkCalls todos rest by simp] at hrest
        exact hrest

theorem updateDailyNote_guard_final (env : Env) (q : Bool) (sd : Option (List Char))
    {g : Bool} {effs : List Eff}
    (h : updateDailyNote env q sd false = .ok (g, effs)) : g = false := by
  unfold updateDailyNote at h
  repeat' split at h
  all_goals cases h
  all_goals rfl

theorem updateDailyNote_error_enum (env : Env) (q : Bool) (sd : Option (List Char))
    (g : Bool) {e : Unit}
    (h : updateDailyNote env q sd g = .error e) : env.enum = .error e := by
  unfold updateDailyNote at h
  repeat' split at h
  all_goals cases h
  all_goals assumption

theorem updateDailyNote_no_updates (env : Env) (q : Bool) (sd : Option (List Char))
    (g : Bool) {b : Bool} {effs : List Eff}
    (h : updateDailyNote env q sd g = .ok (b, effs)) :
    effs.filter isUpdateEff = [] := by
  unfold updateDailyNote at h
  repeat' split at h
  all_goals cases h
  all_goals simp [isUpdateEff]

theorem updateDailyNote_isOk (env : Env) (q : Bool) (sd : Option (List Char))
    (g : Bool) (files : List TFile) (henum : env.enum = .ok files) :
    ∃ b effs, updateDailyNote env q sd g = .ok (b, effs) := by
  cases hres : updateDailyNote env q sd g with
  | error e =>
      have := updateDailyNote_error_enum env q sd g hres
      rw [henum] at this
      cases this
  | ok p => exact ⟨p.1, p.2, rfl⟩

/-- Claim C7: whenever the in-flight guard is set, both entry points are
silent no-ops: they return with no effect at all (no read, write, notice,
sink call or nested render) and leave the guard set, so a modify event fired
during the engine's own write is dropped. -/
theorem claim7_guard_noop (env : Env) (q : Bool) (sd : Option (List Char))
    (f : TFile) :
    updateDailyNote env q sd true = .ok (true, []) ∧
    handleFileModify env f true = .ok (true, []) := by
  constructor
  · unfold updateDailyNote
    rw [if_pos (by simp)]
  · unfold handleFileModify
    rw [if_pos (by simp)]

/-- Claim C8 counterexample: a failure of the vault enumeration (which
`findDailyNote` performs before the try/catch is entered) escapes
`updateDailyNote`, so not every failure is caught. -/
theorem claim8_cex :
    updateDailyNote
      ⟨true, "todos".data, "2024-01-05".data, .error (),
        fun _ => .ok [], fun _ _ => .ok (), fun _ => []⟩
      false none false = .error () := rfl

/-- Claim C8 (amended): the only failures that escape `updateDailyNote` are
enumeration failures, which occur before the guard is set; in every
non-exceptional outcome the guard ends cleared, and a read failure after the
guard is set is caught and reported only as a (quiet-suppressible)
notification with no write. -/
theorem claim8_exception_containment (env : Env) (q : Bool)
    (sd : Option (List Char)) :
    (match updateDailyNote env q sd false with
      | .ok (g, _) => g = false
      | .error e => env.enum = .error e) ∧
    (∀ fs dn, env.autoEmbed = true → env.enum = .ok fs →
      findDailyNote (sd.getD env.now) fs = some dn →
      env.readF dn = .error () →
      updateDailyNote env q sd false =
        .ok (false, [.read dn] ++ if q then [] else [.notice .failed])) := by
  constructor
  · cases hres : updateDailyNote env q sd false with
    | ok p =>
      obtain ⟨g, effs⟩ := p
      exact updateDailyNote_guard_final env q sd hres
    | error e => exact updateDailyNote_error_enum env q sd false hres
  · intro fs dn hauto henum hfind hread
    unfold updateDailyNote
    simp [hauto, henum, hfind, hread]

/-- Claim C8 witness: concrete run in which the read fails and the failure
is contained. -/
theorem claim8_witness :
    updateDailyNote
      ⟨true, "todos".data, "2024-01-05".data,
        .ok [⟨"2024-01-05.md".data, "2024-01-05.md".data, "2024-01-05".data, 7⟩],
        fun _ => .error (), fun _ _ => .ok (), fun _ => []⟩
      true none false =
      .ok (false,
        [.read ⟨"2024-01-05.md".data, "2024-01-05.md".data, "2024-01-05".data, 7⟩] ++
          if true then [] else [.notice .failed]) :=
  (claim8_exception_containment
    ⟨true, "todos".data, "2024-01-05".data,
      .ok [⟨"2024-01-05.md".data, "2024-01-05.md".data, "2024-01-05".data, 7⟩],
      fun _ => .error (), fun _ _ => .ok (), fun _ => []⟩
    true none).2
    [⟨"2024-01-05.md".data, "2024-01-05.md".data, "2024-01-05".data, 7⟩]
    ⟨"2024-01-05.md".data, "2024-01-05.md".data, "2024-01-05".data, 7⟩
    rfl rfl rfl rfl

/-- Claim C4: with either marker absent from the (read) document text, the
section rewrite reports markers-not-found (`none`) and `updateDailyNote`
performs no write at all, leaving the document unmodified. -/
theorem claim4_markers_missing (env : Env) (q : Bool) (sd : Option (List Char))
    (content : List Char)
    (hmiss : firstIdx (startMarkerOf env.marker) content = none ∨
             firstIdx (endMarkerOf env.marker) content = none)
    (hread : ∀ f, env.readF f = .ok content) :
    (∀ rs, updateReminderSection env.marker content rs = none) ∧
    writesOfResult (updateDailyNote env q sd false) = [] := by
  have hnone : ∀ rs, updateReminderSection env.marker content rs = none :=
    fun rs => updateReminderSection_missing _ _ rs hmiss
  refine ⟨hnone, ?_⟩
  have key : ∀ b effs, updateDailyNote env q sd false = .ok (b, effs) →
      effs.filter isWriteEff = [] := by
    intro b effs h
    unfold updateDailyNote at h
    repeat' split at h
    all_goals cases h
    all_goals simp_all [isWriteEff]
  cases hres : updateDailyNote env q sd false with
  | error e => rfl
  | ok p =>
    obtain ⟨b, effs⟩ := p
    show effs.filter isWriteEff = []
    exact key b effs hres

/-- Claim C4 witness: concrete document with no markers. -/
theorem claim4_witness :
    (∀ rs, updateReminderSection ("todos".data) ("no markers here".data) rs = none) ∧
    writesOfResult
      (updateDailyNote
        ⟨true, "todos".data, "2024-01-05".data,
          .ok [⟨"2024-01-05.md".data, "2024-01-05.md".data, "2024-01-05".data, 7⟩],
          fun _ => .ok ("no markers here".data), fun _ _ => .ok (), fun _ => []⟩
        false none false) = [] :=
  claim4_markers_missing
    ⟨true, "todos".data, "2024-01-05".data,
      .ok [⟨"2024-01-05.md".data, "2024-01-05.md".data, "2024-01-05".data, 7⟩],
      fun _ => .ok ("no markers here".data), fun _ _ => .ok (), fun _ => []⟩
    false none ("no markers here".data) (Or.inl rfl) (fun _ => rfl)

/-- Claim C2 witness: a concrete document around the markers. -/
theorem claim2_witness :
    updateReminderSection ("todos".data)
        ("A".data ++ startMarkerOf ("todos".data) ++
          ("B".data ++ endMarkerOf ("todos".data) ++ "C".data))
        [⟨"Buy milk".data, false, "groceries.md".data, "abc123".data⟩] =
      some ("A".data ++ startMarkerOf ("todos".data) ++ ['\n'] ++
        renderLines [⟨"Buy milk".data, false, "groceries.md".data, "abc123".data⟩] ++
        ['\n'] ++ endMarkerOf ("todos".data) ++ "C".data) :=
  claim2_splice_preserves_outside ("todos".data) ("A".data)
    ("B".data ++ endMarkerOf ("todos".data) ++ "C".data)
    ("A".data ++ startMarkerOf ("todos".data) ++ "B".data) ("C".data)
    [⟨"Buy milk".data, false, "groceries.md".data, "abc123".data⟩]
    rfl rfl rfl (by decide)

/-- Claim C10 witness: end marker before start marker in a concrete
document; the spliced result duplicates the middle text. -/
theorem claim10_witness :
    updateReminderSection ("todos".data)
        ("X".data ++ endMarkerOf ("todos".data) ++ "MID".data ++
          startMarkerOf ("todos".data) ++ "Y".data) [] =
      some ("X".data ++ endMarkerOf ("todos".data) ++ "MID".data ++
        startMarkerOf ("todos".data) ++ ['\n'] ++ renderLines [] ++ ['\n'] ++
        endMarkerOf ("todos".data) ++ "MID".data ++
        startMarkerOf ("todos".data) ++ "Y".data) :=
  claim10_reversed_markers_duplicate ("todos".data) ("X".data) ("MID".data)
    ("Y".data) [] rfl rfl

/-- Claim C1 counterexample: two candidate files tied on the maximum mtime;
`findDailyNote` returns the second (last-encountered), not the first. -/
theorem claim1_cex :
    findDailyNote ("2024-01-05".data)
        [⟨"a/2024-01-05.md".data, "2024-01-05.md".data, "2024-01-05".data, 5⟩,
         ⟨"b/2024-01-05.md".data, "2024-01-05.md".data, "2024-01-05".data, 5⟩] =
      some ⟨"b/2024-01-05.md".data, "2024-01-05.md".data, "2024-01-05".data, 5⟩ ∧
    (⟨"b/2024-01-05.md".data, "2024-01-05.md".data, "2024-01-05".data, 5⟩ : TFile) ≠
      ⟨"a/2024-01-05.md".data, "2024-01-05.md".data, "2024-01-05".data, 5⟩ := by
  constructor
  · rfl
  · decide

/-- Claim C1 (amended): among the candidates of the selected filter stage,
`findDailyNote` returns the one with the maximum `lastModifiedTime`, and on
ties the LAST-encountered tied candidate in input order wins (every stage
element after the returned one is strictly older). -/
theorem claim1_latest_last_tie (dateStr : List Char) (files : List TFile)
    (a : TFile) (t : List TFile)
    (hstage : candidateStage dateStr files = a :: t) :
    ∃ r u v, findDailyNote dateStr files = some r ∧
      a :: t = u ++ r :: v ∧
      (∀ y ∈ v, y.mtime < r.mtime) ∧
      (∀ y ∈ a :: t, y.mtime ≤ r.mtime) := by
  have hf : findDailyNote dateStr files = some (pickMax a t) := by
    unfold findDailyNote
    rw [hstage]
  rcases pickMax_spec a t with ⟨u, v, h1, h2, h3⟩
  exact ⟨pickMax a t, u, v, hf, h1, h2, h3⟩

/-- Claim C1 witness: the tied pair from the counterexample instantiates the
amended statement. -/
theorem claim1_witness :
    ∃ r u v, findDailyNote ("2024-01-05".data)
        [⟨"a/2024-01-05.md".data, "2024-01-05.md".data, "2024-01-05".data, 5⟩,
         ⟨"b/2024-01-05.md".data, "2024-01-05.md".data, "2024-01-05".data, 5⟩] =
        some r ∧
      [⟨"a/2024-01-05.md".data, "2024-01-05.md".data, "2024-01-05".data, 5⟩,
       ⟨"b/2024-01-05.md".data, "2024-01-05.md".data, "2024-01-05".data, 5⟩] =
        u ++ r :: v ∧
      (∀ y ∈ v, y.mtime < r.mtime) ∧
      (∀ y ∈ [(⟨"a/2024-01-05.md".data, "2024-01-05.md".data, "2024-01-05".data, 5⟩ : TFile),
              ⟨"b/2024-01-05.md".data, "2024-01-05.md".data, "2024-01-05".data, 5⟩],
        y.mtime ≤ r.mtime) :=
  claim1_latest_last_tie ("2024-01-05".data)
    [⟨"a/2024-01-05.md".data, "2024-01-05.md".data, "2024-01-05".data, 5⟩,
     ⟨"b/2024-01-05.md".data, "2024-01-05.md".data, "2024-01-05".data, 5⟩]
    ⟨"a/2024-01-05.md".data, "2024-01-05.md".data, "2024-01-05".data, 5⟩
    [⟨"b/2024-01-05.md".data, "2024-01-05.md".data, "2024-01-05".data, 5⟩]
    rfl

/-- Claim C9: the locator's staging — an exact-basename candidate is always
chosen over substring-only candidates regardless of modification times; the
substring stage only applies when no exact match exists; when both stages
are empty the result is `none`. -/
theorem claim9_exact_before_substring (dateStr : List Char) (files : List TFile) :
    ((∃ f ∈ files, f.basename = dateStr) →
      ∃ r, findDailyNote dateStr files = some r ∧ r.basename = dateStr) ∧
    ((∀ f ∈ files, f.basename ≠ dateStr) →
      (∃ f ∈ files, (firstIdx dateStr f.name).isSome) →
      ∃ r, findDailyNote dateStr files = some r ∧
        (firstIdx dateStr r.name).isSome ∧ r.basename ≠ dateStr) ∧
    ((∀ f ∈ files, f.basename ≠ dateStr ∧ ¬ (firstIdx dateStr f.name).isSome) →
      findDailyNote dateStr files = none) := by
  refine ⟨?_, ?_, ?_⟩
  · intro ⟨f, hf, hbase⟩
    have hfmem : f ∈ files.filter (fun g => g.basename == dateStr) :=
      List.mem_filter.mpr ⟨hf, by simpa using hbase⟩
    have hstage : candidateStage dateStr files =
        files.filter (fun g => g.basename == dateStr) := by
      unfold candidateStage
      rw [if_neg]
      simp only [List.isEmpty_iff]
      intro hnil
      rw [hnil] at hfmem
      cases hfmem
    cases hexact : files.filter (fun g => g.basename == dateStr) with
    | nil => rw [hexact] at hfmem; cases hfmem
    | cons a t =>
      have hfind : findDailyNote dateStr files = some (pickMax a t) := by
        unfold findDailyNote
        rw [hstage, hexact]
      have hmem : pickMax a t ∈ files.filter (fun g => g.basename == dateStr) := by
        rw [hexact]
        exact pickMax_mem a t
      have := List.mem_filter.mp hmem
      exact ⟨pickMax a t, hfind, by simpa using this.2⟩
  · intro hni ⟨f, hf, hsub⟩
    have hexact : files.filter (fun g => g.basename == dateStr) = [] := by
      rw [List.filter_eq_nil_iff]
      intro g hg
      simpa using hni g hg
    have hstage : candidateStage dateStr files =
        files.filter (fun g => (firstIdx dateStr g.name).isSome) := by
      unfold candidateStage
      rw [hexact]
      rfl
    have hfmem : f ∈ files.filter (fun g => (firstIdx dateStr g.name).isSome) :=
      List.mem_filter.mpr ⟨hf, hsub⟩
    cases hloose : files.filter (fun g => (firstIdx dateStr g.name).isSome) with
    | nil => rw [hloose] at hfmem; cases hfmem
    | cons a t =>
      have hfind : findDailyNote dateStr files = some (pickMax a t) := by
        unfold findDailyNote
        rw [hstage, hloose]
      have hmem : pickMax a t ∈
          files.filter (fun g => (firstIdx dateStr g.name).isSome) := by
        rw [hloose]
        exact pickMax_mem a t
      have hmm := List.mem_filter.mp hmem
      exact ⟨pickMax a t, hfind, hmm.2, hni _ hmm.1⟩
  · intro hno
    have hexact : files.filter (fun g => g.basename == dateStr) = [] := by
      rw [List.filter_eq_nil_iff]
      intro g hg
      simpa using (hno g hg).1
    have hloose : files.filter (fun g => (firstIdx dateStr g.name).isSome) = [] := by
      rw [List.filter_eq_nil_iff]
      intro g hg
      simpa using (hno g hg).2
    unfold findDailyNote candidateStage
    rw [hexact, hloose]
    rfl

/-- Claim C9 witness: an exact match beats an older-named substring match;
pure substring matching works when no exact match exists; no match at all
yields none. -/
theorem claim9_witness :
    (∃ r, findDailyNote ("2024-01-05".data)
        [⟨"old-2024-01-05-backup.md".data, "old-2024-01-05-backup.md".data,
           "old-2024-01-05-backup".data, 9⟩,
         ⟨"2024-01-05.md".data, "2024-01-05.md".data, "2024-01-05".data, 3⟩] =
        some r ∧ r.basename = "2024-01-05".data) ∧
    (∃ r, findDailyNote ("2024-01-05".data)
        [⟨"notes-2024-01-05-a.md".data, "notes-2024-01-05-a.md".data,
           "notes-2024-01-05-a".data, 9⟩] =
        some r ∧ (firstIdx ("2024-01-05".data) r.name).isSome ∧
        r.basename ≠ "2024-01-05".data) ∧
    findDailyNote ("2024-01-05".data)
      [⟨"other.md".data, "other.md".data, "other".data, 9⟩] = none := by
  refine ⟨?_, ?_, ?_⟩
  · exact (claim9_exact_before_substring ("2024-01-05".data) _).1
      ⟨⟨"2024-01-05.md".data, "2024-01-05.md".data, "2024-01-05".data, 3⟩,
        by decide, by decide⟩
  · exact (claim9_exact_before_substring ("2024-01-05".data) _).2.1
      (by decide)
      ⟨⟨"notes-2024-01-05-a.md".data, "notes-2024-01-05-a.md".data,
         "notes-2024-01-05-a".data, 9⟩, by decide, by decide⟩
  · exact (claim9_exact_before_substring ("2024-01-05".data) _).2.2 (by decide)

/-- Claim C3 counterexample: rendering is NOT idempotent on every document —
when the end marker precedes the start marker the splice duplicates text, and
a second pass duplicates it again, yielding a different document. -/
theorem claim3_cex :
    ((updateReminderSection ("todos".data)
        ("<!-- end of todos --><!-- start of todos -->".data) []).bind
      (fun r => updateReminderSection ("todos".data) r [])) ≠
    updateReminderSection ("todos".data)
      ("<!-- end of todos --><!-- start of todos -->".data) [] := by
  decide

/-- Claim C3 (amended): rendering is idempotent — and a second
`updateDailyNote` pass over the once-rendered document performs no write —
provided the first start-marker occurrence is at or before the first
end-marker occurrence and the end marker does not occur inside the freshly
rendered section before its terminal marker line. -/
theorem claim3_idempotent_render (m content : List Char) (rs : List Reminder)
    (s e : Nat)
    (hs : firstIdx (startMarkerOf m) content = some s)
    (he : firstIdx (endMarkerOf m) content = some e)
    (hse : s ≤ e)
    (hsec : firstIdx (endMarkerOf m) (newSection m rs) =
      some ((startMarkerOf m).length + 1 + (renderLines rs).length + 1)) :
    (∀ r, updateReminderSection m content rs = some r →
      updateReminderSection m r rs = some r) ∧
    (∀ (env : Env) (q : Bool) (sd : Option (List Char)) (fs : List TFile)
        (dn : TFile) (r : List Char),
      env.marker = m → env.autoEmbed = true → env.enum = .ok fs →
      findDailyNote (sd.getD env.now) fs = some dn →
      updateReminderSection m content rs = some r →
      env.readF dn = .ok r →
      env.byDate (sd.getD env.now) = rs →
      writesOfResult (updateDailyNote env q sd false) = []) := by
  have hfix : ∀ r, updateReminderSection m content rs = some r →
      updateReminderSection m r rs = some r := by
    intro r hr
    rw [updateReminderSection_found rs hs he] at hr
    injection hr with hr'
    subst hr'
    exact render_once_fixed m content rs s e hs he hse hsec
  refine ⟨hfix, ?_⟩
  intro env q sd fs dn r hm hauto henum hfind hrender hread hbyd
  have hfix2 : updateReminderSection env.marker r (env.byDate (sd.getD env.now)) =
      some r := by
    rw [hm, hbyd]
    exact hfix r hrender
  unfold updateDailyNote
  simp only [hauto, henum, hfind, hread, hfix2, Bool.not_true, Bool.or_false,
    Bool.false_eq_true, if_false]
  simp [writesOfResult, isWriteEff]

/-- Claim C3 witness: a concrete well-formed document, rendered once, is a
fixed point, and the second engine pass performs no write. -/
theorem claim3_witness :
    updateReminderSection ("todos".data)
        ("A<!-- start of todos -->\n\n<!-- end of todos -->C".data) [] =
      some ("A<!-- start of todos -->\n\n<!-- end of todos -->C".data) ∧
    writesOfResult
      (updateDailyNote
        ⟨true, "todos".data, "2024-01-05".data,
          .ok [⟨"2024-01-05.md".data, "2024-01-05.md".data, "2024-01-05".data, 7⟩],
          fun _ => .ok ("A<!-- start of todos -->\n\n<!-- end of todos -->C".data),
          fun _ _ => .ok (), fun _ => []⟩
        true none false) = [] := by
  constructor
  · exact (claim3_idempotent_render ("todos".data)
      ("A<!-- start of todos -->B<!-- end of todos -->C".data) [] 1 25
      rfl rfl (by omega) rfl).1
      ("A<!-- start of todos -->\n\n<!-- end of todos -->C".data) rfl
  · exact (claim3_idempotent_render ("todos".data)
      ("A<!-- start of todos -->B<!-- end of todos -->C".data) [] 1 25
      rfl rfl (by omega) rfl).2
      ⟨true, "todos".data, "2024-01-05".data,
        .ok [⟨"2024-01-05.md".data, "2024-01-05.md".data, "2024-01-05".data, 7⟩],
        fun _ => .ok ("A<!-- start of todos -->\n\n<!-- end of todos -->C".data),
        fun _ _ => .ok (), fun _ => []⟩
      true none
      [⟨"2024-01-05.md".data, "2024-01-05.md".data, "2024-01-05".data, 7⟩]
      ⟨"2024-01-05.md".data, "2024-01-05.md".data, "2024-01-05".data, 7⟩
      ("A<!-- start of todos -->\n\n<!-- end of todos -->C".data)
      rfl rfl rfl rfl rfl rfl rfl

theorem filter_update_callEffs (todos : List Reminder) (calls : List (Nat × Bool)) :
    (calls.filterMap
        (fun c => (todos[c.1]?).map (fun r => Eff.updateRem r c.2))).filter
      isUpdateEff =
    calls.filterMap (fun c => (todos[c.1]?).map (fun r => Eff.updateRem r c.2)) := by
  apply List.filter_eq_self.mpr
  intro x hx
  rcases List.mem_filterMap.mp hx with ⟨c, -, hc⟩
  rcases Option.map_eq_some'.mp hc with ⟨r, -, hr⟩
  rw [← hr]
  rfl

/-- Claim C6: on a recognized daily note with both markers present, when the
section lines lead to no sink call the engine performs the healing re-render
(`updateDailyNote` with `quiet = true` and the file's date), and when at
least one reminder update was emitted no re-render happens. -/
theorem claim6_healing_render (env : Env) (file : TFile) (d content : List Char)
    (s e : Nat) (fs : List TFile)
    (hauto : env.autoEmbed = true)
    (hdate : getDailyNoteDate file.name = some d)
    (hread : env.readF file = .ok content)
    (hs : firstIdx (startMarkerOf env.marker) content = some s)
    (he : firstIdx (endMarkerOf env.marker) content = some e)
    (henum : env.enum = .ok fs) :
    (sinkCalls (env.byDate d) (sectionLines env.marker content s e) = [] →
      ∃ neffs, updateDailyNote env true (some d) false = .ok (false, neffs) ∧
        handleFileModify env file false =
          .ok (false, Eff.read file :: Eff.render true d :: neffs)) ∧
    (sinkCalls (env.byDate d) (sectionLines env.marker content s e) ≠ [] →
      ∃ effs, handleFileModify env file false = .ok (false, effs) ∧
        ∀ q' d', Eff.render q' d' ∉ effs) := by
  constructor
  · intro hcalls
    obtain ⟨b, neffs, hupd⟩ := updateDailyNote_isOk env true (some d) false fs henum
    have hb := updateDailyNote_guard_final env true (some d) hupd
    subst hb
    refine ⟨neffs, hupd, ?_⟩
    simp [handleFileModify, hauto, hdate, hread, hs, he, hcalls, hupd]
  · intro hcalls
    have hne : (sinkCalls (env.byDate d)
        (sectionLines env.marker content s e)).isEmpty = false := by
      cases hsc : sinkCalls (env.byDate d) (sectionLines env.marker content s e) with
      | nil => exact absurd hsc hcalls
      | cons c cs => rfl
    refine ⟨[Eff.read file] ++
        (sinkCalls (env.byDate d) (sectionLines env.marker content s e)).filterMap
          (fun c => ((env.byDate d)[c.1]?).map (fun r => Eff.updateRem r c.2)),
      ?_, ?_⟩
    · simp [handleFileModify, hauto, hdate, hread, hs, he, hne]
    · intro q' d' hmem
      rcases List.mem_append.mp hmem with hmem | hmem
      · simp at hmem
      · rcases List.mem_filterMap.mp hmem with ⟨c, -, hc⟩
        rcases Option.map_eq_some'.mp hc with ⟨r, -, hr⟩
        exact Eff.noConfusion hr

/-- Claim C6 witness: concrete daily note whose section cannot change any
reminder, so the healing re-render fires. -/
theorem claim6_witness :
    ∃ neffs,
      updateDailyNote
        ⟨true, "todos".data, "2024-01-05".data,
          .ok [⟨"2024-01-05.md".data, "2024-01-05.md".data, "2024-01-05".data, 7⟩],
          fun _ => .ok ("A<!-- start of todos -->\n\n<!-- end of todos -->C".data),
          fun _ _ => .ok (), fun _ => []⟩
        true (some ("2024-01-05".data)) false = .ok (false, neffs) ∧
      handleFileModify
        ⟨true, "todos".data, "2024-01-05".data,
          .ok [⟨"2024-01-05.md".data, "2024-01-05.md".data, "2024-01-05".data, 7⟩],
          fun _ => .ok ("A<!-- start of todos -->\n\n<!-- end of todos -->C".data),
          fun _ _ => .ok (), fun _ => []⟩
        ⟨"2024-01-05.md".data, "2024-01-05.md".data, "2024-01-05".data, 7⟩ false =
        .ok (false,
          Eff.read ⟨"2024-01-05.md".data, "2024-01-05.md".data, "2024-01-05".data, 7⟩ ::
            Eff.render true ("2024-01-05".data) :: neffs) :=
  (claim6_healing_render
    ⟨true, "todos".data, "2024-01-05".data,
      .ok [⟨"2024-01-05.md".data, "2024-01-05.md".data, "2024-01-05".data, 7⟩],
      fun _ => .ok ("A<!-- start of todos -->\n\n<!-- end of todos -->C".data),
      fun _ _ => .ok (), fun _ => []⟩
    ⟨"2024-01-05.md".data, "2024-01-05.md".data, "2024-01-05".data, 7⟩
    ("2024-01-05".data)
    ("A<!-- start of todos -->\n\n<!-- end of todos -->C".data)
    1 26
    [⟨"2024-01-05.md".data, "2024-01-05.md".data, "2024-01-05".data, 7⟩]
    rfl rfl rfl rfl rfl rfl).1 rfl

/-- Claim C5 counterexample: two section lines that both title-match the same
reminder with opposite checkboxes; after the first pass's update is applied,
an immediate re-run still produces a sink call, so re-running is not
quiescent in general. -/
theorem claim5_cex :
    sinkCalls
      (applyCalls [⟨"T".data, false, "f.md".data, "k1".data⟩]
        (sinkCalls [⟨"T".data, false, "f.md".data, "k1".data⟩]
          ["- [x] T".data, "- [ ] T".data]))
      ["- [x] T".data, "- [ ] T".data] ≠ [] := by
  decide

/-- Claim C5 (amended): per parsed checklist line the matched reminder is
the first (in collection order) whose key equals the embedded non-empty
reminder-key when one is present, otherwise the first whose title is a
prefix of the line body (a present-but-empty key counts as absent); a sink
call is emitted exactly when the matched reminder's `done` differs from the
checkbox; the update effects of `handleFileModify` are exactly these calls;
and when no two parsed lines resolve to the same reminder, an immediate
re-run after applying the updates produces no further sink calls. -/
theorem claim5_reconciliation :
    (∀ (todos : List Reminder) (line : List Char) (i : Nat) (b : Bool),
      lineCall todos line = some (i, b) ↔
        ∃ chk body r, todoParse (trimWS line) = some (chk, body) ∧ b = chk ∧
          todos[i]? = some r ∧ r.done ≠ chk ∧
          ((∃ k, extractKey body = some k ∧ k ≠ [] ∧ r.key = k ∧
              ∀ j, j < i → ∀ r', todos[j]? = some r' → r'.key ≠ k) ∨
           ((extractKey body = none ∨ extractKey body = some []) ∧
              r.title <+: body ∧
              ∀ j, j < i → ∀ r', todos[j]? = some r' → ¬ r'.title <+: body))) ∧
    (∀ (todos : List Reminder) (lines : List (List Char)),
      (lines.filterMap (matchedIdx todos)).Nodup →
      sinkCalls (applyCalls todos (sinkCalls todos lines)) lines = []) ∧
    (∀ (env : Env) (file : TFile) (d content : List Char) (s e : Nat),
      env.autoEmbed = true → getDailyNoteDate file.name = some d →
      env.readF file = .ok content →
      firstIdx (startMarkerOf env.marker) content = some s →
      firstIdx (endMarkerOf env.marker) content = some e →
      updatesOfResult (handleFileModify env file false) =
        (sinkCalls (env.byDate d) (sectionLines env.marker content s e)).filterMap
          (fun c => ((env.byDate d)[c.1]?).map (fun r => Eff.updateRem r c.2))) := by
  refine ⟨?_, ?_, ?_⟩
  · intro todos line i b
    cases hp : todoParse (trimWS line) with
    | none =>
      constructor
      · intro h
        simp [lineCall, hp] at h
      · rintro ⟨chk, body, r, hp', -⟩
        cases hp'
    | some pb =>
      obtain ⟨chk0, body0⟩ := pb
      constructor
      · intro h
        have hm := lineCall_matchedIdx h
        have hfind : findFirstIdx (matchPred body0 (effectiveKey body0)) todos
            = some i := by
          have hh := hm
          simp only [matchedIdx, hp] at hh
          exact hh
        obtain ⟨r, hr, hpr, hmin⟩ :=
          (findFirstIdx_eq_some_iff _ todos i).mp hfind
        have hbd : b = chk0 ∧ ¬ r.done = chk0 := by
          simp only [lineCall, hp, hm, hr] at h
          split at h
          · cases h
          · next hd =>
            injection h with h1
            injection h1 with hi hb
            exact ⟨hb.symm, by simpa using hd⟩
        refine ⟨chk0, body0, r, rfl, hbd.1, hr, hbd.2, ?_⟩
        cases hk : extractKey body0 with
        | none =>
          right
          have heff : effectiveKey body0 = none := by simp [effectiveKey, hk]
          rw [heff] at hpr hmin
          refine ⟨Or.inl rfl, ?_, ?_⟩
          · have hb0 : r.title.isPrefixOf body0 = true := hpr
            exact List.isPrefixOf_iff_prefix.mp hb0
          · intro j hj r' hr' hpre
            have hfalse := hmin j hj r' hr'
            have htrue : matchPred body0 none r' = true := by
              simp only [matchPred]
              exact List.isPrefixOf_iff_prefix.mpr hpre
            rw [htrue] at hfalse
            cases hfalse
        | some k =>
          by_cases hke : k = []
          · subst hke
            right
            have heff : effectiveKey body0 = none := by simp [effectiveKey, hk]
            rw [heff] at hpr hmin
            refine ⟨Or.inr rfl, ?_, ?_⟩
            · have hb0 : r.title.isPrefixOf body0 = true := hpr
              exact List.isPrefixOf_iff_prefix.mp hb0
            · intro j hj r' hr' hpre
              have hfalse := hmin j hj r' hr'
              have htrue : matchPred body0 none r' = true := by
                simp only [matchPred]
                exact List.isPrefixOf_iff_prefix.mpr hpre
              rw [htrue] at hfalse
              cases hfalse
          · left
            have heff : effectiveKey body0 = some k := by
              simp [effectiveKey, hk, List.isEmpty_iff, hke]
            rw [heff] at hpr hmin
            refine ⟨k, rfl, hke, ?_, ?_⟩
            · simpa [matchPred] using hpr
            · intro j hj r' hr' hkeq
              have hfalse := hmin j hj r' hr'
              have htrue : matchPred body0 (some k) r' = true := by
                simp [matchPred, hkeq]
              rw [htrue] at hfalse
              cases hfalse
      · rintro ⟨chk, body, r, hp', hb, hr, hd, hbr⟩
        injection hp' with hpp
        injection hpp with hc hbod
        subst hc
        subst hbod
        subst hb
        have hpred : matchPred body0 (effectiveKey body0) r = true ∧
            ∀ j, j < i → ∀ r', todos[j]? = some r' →
              matchPred body0 (effectiveKey body0) r' = false := by
          rcases hbr with ⟨k, hk, hke, hkey, hminK⟩ | ⟨hkn, hpre, hminT⟩
          · have heff : effectiveKey body0 = some k := by
              simp [effectiveKey, hk, List.isEmpty_iff, hke]
            rw [heff]
            refine ⟨by simp [matchPred, hkey], ?_⟩
            intro j hj r' hr'
            have hne := hminK j hj r' hr'
            simp only [matchPred]
            exact beq_eq_false_iff_ne.mpr hne
          · have heff : effectiveKey body0 = none := by
              rcases hkn with hkn | hkn
              · simp [effectiveKey, hkn]
              · simp [effectiveKey, hkn]
            rw [heff]
            constructor
            · simp only [matchPred]
              exact List.isPrefixOf_iff_prefix.mpr hpre
            · intro j hj r' hr'
              have hnp := hminT j hj r' hr'
              simp only [matchPred]
              exact Bool.eq_false_iff.mpr
                (fun hx => hnp ( List.isPrefixOf_iff_prefix.mp hx))
        have hfind : findFirstIdx (matchPred body0 (effectiveKey body0)) todos
            = some i :=
          (findFirstIdx_eq_some_iff _ todos i).mpr ⟨r, hr, hpred.1, hpred.2⟩
        have hm : matchedIdx todos line = some i := by
          simp only [matchedIdx, hp]
          exact hfind
        simp [lineCall, hp, hm, hr, hd]
  · intro todos lines hnd
    have h := quiesce_aux todos lines [] hnd (by simp)
    simpa using h
  · intro env file d content s e hauto hdate hread hs he
    by_cases hcalls :
        sinkCalls (env.byDate d) (sectionLines env.marker content s e) = []
    · cases hupd : updateDailyNote env true (some d) false with
      | error e2 =>
        have hmain : handleFileModify env file false = .error e2 := by
          simp [handleFileModify, hauto, hdate, hread, hs, he, hcalls, hupd]
        rw [hmain, hcalls]
        rfl
      | ok p =>
        obtain ⟨g2, neffs⟩ := p
        have hmain : handleFileModify env file false =
            .ok (g2, Eff.read file :: Eff.render true d :: neffs) := by
          simp [handleFileModify, hauto, hdate, hread, hs, he, hcalls, hupd]
        rw [hmain, hcalls]
        have hno := updateDailyNote_no_updates env true (some d) false hupd
        simp [updatesOfResult, isUpdateEff, hno]
    · have hne : (sinkCalls (env.byDate d)
          (sectionLines env.marker content s e)).isEmpty = false := by
        cases hsc : sinkCalls (env.byDate d) (sectionLines env.marker content s e) with
        | nil => exact absurd hsc hcalls
        | cons c cs => rfl
      have hmain : handleFileModify env file false =
          .ok (false, [Eff.read file] ++
            (sinkCalls (env.byDate d) (sectionLines env.marker content s e)).filterMap
              (fun c => ((env.byDate d)[c.1]?).map (fun r => Eff.updateRem r c.2))) := by
        simp [handleFileModify, hauto, hdate, hread, hs, he, hne]
      rw [hmain]
      show (Eff.read file ::
          (sinkCalls (env.byDate d) (sectionLines env.marker content s e)).filterMap
            (fun c => ((env.byDate d)[c.1]?).map (fun r => Eff.updateRem r c.2))).filter
          isUpdateEff = _
    
      rw [List.filter_cons_of_neg (by simp [isUpdateEff])]
      exact filter_update_callEffs (env.byDate d) _

/-- Claim C5 witness: the characterization at a concrete matched line, the
quiescent re-run on a concrete section, and the effect-trace equation on a
concrete environment. -/
theorem claim5_witness :
    (∃ chk body r,
      todoParse (trimWS ("- [x] T".data)) = some (chk, body) ∧ (true : Bool) = chk ∧
      ([⟨"T".data, false, "f.md".data, "k1".data⟩] : List Reminder)[0]? = some r ∧
      r.done ≠ chk ∧
      ((∃ k, extractKey body = some k ∧ k ≠ [] ∧ r.key = k ∧
          ∀ j, j < 0 → ∀ r',
            ([⟨"T".data, false, "f.md".data, "k1".data⟩] : List Reminder)[j]? = some r' →
            r'.key ≠ k) ∨
       ((extractKey body = none ∨ extractKey body = some []) ∧
          r.title <+: body ∧
          ∀ j, j < 0 → ∀ r',
            ([⟨"T".data, false, "f.md".data, "k1".data⟩] : List Reminder)[j]? = some r' →
            ¬ r'.title <+: body))) ∧
    sinkCalls
      (applyCalls [⟨"T".data, false, "f.md".data, "k1".data⟩]
        (sinkCalls [⟨"T".data, false, "f.md".data, "k1".data⟩] ["- [x] T".data]))
      ["- [x] T".data] = [] ∧
    updatesOfResult (handleFileModify demoEnv demoFile false) =
      (sinkCalls (demoEnv.byDate ("2024-01-06".data))
          (sectionLines demoEnv.marker demoContent 1 33)).filterMap
        (fun c => ((demoEnv.byDate ("2024-01-06".data))[c.1]?).map
          (fun r => Eff.updateRem r c.2)) :=
  ⟨(claim5_reconciliation.1 [⟨"T".data, false, "f.md".data, "k1".data⟩]
      ("- [x] T".data) 0 true).mp rfl,
   claim5_reconciliation.2.1 [⟨"T".data, false, "f.md".data, "k1".data⟩]
      ["- [x] T".data] (by decide),
   claim5_reconciliation.2.2 demoEnv demoFile ("2024-01-06".data) demoContent 1 33
      rfl rfl rfl rfl rfl⟩

end DailyNote
